import Mathlib

/-!
# Vulnbot: catalog lookups, log-level selection and finding collection

A shallow embedding of

* `config/config.go`: `GetIconForSeverity`, `GetIconForEcosystem`, `GetTeamConfigBySlug`;
* `cmd/root.go`: the log level chosen by `rootCmd.PersistentPreRun`;
* the GitHub provider's `CollectFindings`, whose body is not among the sources and is
  modelled from the specification (sections 4.2 and 4.4).

Go values are embedded as follows. A Go `string` is a Lean `String`. A Go `error` is an
`Option String`: `none` is the nil error, `some msg` a non-nil error with message `msg`.
A function returning `(T, error)` returns a pair. A Go `map[K]string` is a function
`K → Option String`, and the index expression `m[k]` yields the empty string for an absent key.
-/

namespace Vulnbot

/-! ## Data model of `config/config.go` -/

/-- Go's `error`: `none` is nil, `some msg` is a non-nil error. -/
abbrev GoError := Option String

/-- The struct `TeamConfig` of `config.go`, with its three string fields. -/
structure TeamConfig where
  Name : String
  Github_slug : String
  Slack_channel : String
deriving DecidableEq, Repr

/-- The entries of `Config.Severity`; the lookups read the fields `Label` and `Slack_emoji`. -/
structure SeverityConfig where
  Label : String
  Slack_emoji : String
deriving DecidableEq, Repr

/-- The entries of `Config.Ecosystem`; the lookups read the fields `Label` and `Slack_emoji`. -/
structure EcosystemConfig where
  Label : String
  Slack_emoji : String
deriving DecidableEq, Repr

/-- The type `FindingEcosystemType`, which the code converts with `string(ecosystem)`: a
string-kinded type. -/
abbrev FindingEcosystemType := String

/-- A Go `map[K]string`. -/
abbrev GoMap (κ : Type) := κ → Option String

/-- The Go index expression `m[k]`: the zero value `""` when the key is absent. -/
def GoMap.index {κ : Type} (m : GoMap κ) (k : κ) : String :=
  (m k).getD ""

/-- The zero value `TeamConfig{}`. -/
def TeamConfig.zero : TeamConfig := ⟨"", "", ""⟩

/-- The library function `strings.ToLower` on its ASCII path: `A`..`Z` become `a`..`z`,
every other character is kept. It agrees with Go on strings whose characters are ASCII or
have no lower-case mapping. The general theorems below take the lower-casing function as a
parameter; this instance serves for concrete evaluations. -/
def ToLower (s : String) : String :=
  String.mk (s.data.map Char.toLower)

/-! ## The three lookups of `config/config.go` -/

/-- The function `GetIconForSeverity`: the loop over `severities` compares each `Label` with
`SeverityNames[severity]`. `SeverityNames` is declared outside the given sources and is a
parameter. -/
def GetIconForSeverity {σ : Type} (SeverityNames : GoMap σ) (severity : σ) :
    List SeverityConfig → String × GoError
  | [] => ("", some ("No Slack icon available for severity " ++ SeverityNames.index severity))
  | config :: rest =>
    if config.Label = SeverityNames.index severity then (config.Slack_emoji, none)
    else GetIconForSeverity SeverityNames severity rest

/-- The function `GetIconForEcosystem`: the loop compares `strings.ToLower(config.Label)` with
`string(ecosystem)`. The library function `strings.ToLower` is the parameter `lower`. -/
def GetIconForEcosystem (lower : String → String) (ecosystem : FindingEcosystemType) :
    List EcosystemConfig → String × GoError
  | [] => ("", some ("No Slack icon available for ecosystem " ++ ecosystem))
  | config :: rest =>
    if lower config.Label = ecosystem then (config.Slack_emoji, none)
    else GetIconForEcosystem lower ecosystem rest

/-- The function `GetTeamConfigBySlug`: the loop returns the first team whose `Github_slug` equals
`teamSlug`; after the loop it returns `TeamConfig{}` and an error. -/
def GetTeamConfigBySlug (teamSlug : String) : List TeamConfig → TeamConfig × GoError
  | [] => (TeamConfig.zero, some ("No config found for team " ++ teamSlug))
  | team :: rest =>
    if team.Github_slug = teamSlug then (team, none)
    else GetTeamConfigBySlug teamSlug rest

/-! ## The log level of `cmd/root.go` -/

/-- The type `zerolog.Level` is an `int8`: conversion to it, and arithmetic in it, wrap
modulo 256 into `-128..127`. -/
def wrapInt8 (x : Int) : Int :=
  (x + 128) % 256 - 128

/-- The constant `zerolog.Disabled` of the logging library. -/
def zerolog.Disabled : Int := 7

/-- The statement `if verbosity > 3 { verbosity = 3 }`. -/
def clampVerbosity (verbosity : Int) : Int :=
  if verbosity > 3 then 3 else verbosity

/-- The level that `rootCmd.PersistentPreRun` passes to `logger.SetLogLevel`, as a function of
the `quiet` flag and the `verbose` count. `logger.DEFAULT_LOG_LEVEL` is declared outside the
given sources and is a parameter. `zerolog.Level(verbosity)` is the `int8` conversion and the
subtraction is `int8` arithmetic. -/
def PersistentPreRun (DEFAULT_LOG_LEVEL : Int) (quiet : Bool) (verbosity : Int) : Int :=
  if quiet = true then zerolog.Disabled
  else if verbosity > 0 then
    wrapInt8 (DEFAULT_LOG_LEVEL - wrapInt8 (clampVerbosity verbosity))
  else DEFAULT_LOG_LEVEL

/-! ## Finding collection (`querying` package)

The data types are those the tests in `querying/github_test.go` construct. The operations
and the provider algorithm are not among the sources. -/

/-- The type `querying.FindingIdentifierType`; the tests use the key `FindingIdentifierCVE`. -/
inductive FindingIdentifierType where
  | CVE
deriving DecidableEq, Repr

/-- The struct `querying.Finding`, with `FindingIdentifierMap` as an association list. The severity
enumeration `config.FindingSeverityType` is the type parameter `σ`. -/
structure Finding (σ : Type) where
  Ecosystem : FindingEcosystemType
  Severity : σ
  Description : String
  PackageName : String
  Identifiers : List (FindingIdentifierType × String)
deriving DecidableEq

/-- The struct `querying.Project`: `Links` is a `map[string]string` kept as an association list with
unique keys, `Owners` is a `mapset.Set[config.TeamConfig]`. -/
structure Project (σ : Type) where
  Name : String
  Links : List (String × String)
  Findings : List (Finding σ)
  Owners : Finset TeamConfig
deriving DecidableEq

/-- The struct `querying.ProjectCollection`. -/
structure ProjectCollection (σ : Type) where
  Projects : List (Project σ)

/-- Modelled from the spec: `NewCollection` of section 4.2 (`querying.NewProjectCollection`,
not among the sources), the empty ordered sequence. -/
def NewProjectCollection (σ : Type) : ProjectCollection σ :=
  ⟨[]⟩

/-- Modelled from the spec: the Project that `FindOrCreateProject` constructs, with empty
Links, Findings and Owners. -/
def NewProject {σ : Type} (name : String) : Project σ :=
  ⟨name, [], [], ∅⟩

/-- Modelled from the spec: `FindOrCreateProject` of section 4.2 (not among the sources).
The collection is returned unchanged when it holds a Project of that name, and with a new
Project appended otherwise. The Project it hands back is the first one of that name. -/
def FindOrCreateProject {σ : Type} (name : String) (c : List (Project σ)) : List (Project σ) :=
  if c.any (fun p => decide (p.Name = name)) then c else c ++ [NewProject name]

/-- Modelled from the spec: a mutation through the pointer that `FindOrCreateProject`
returned, applied to the first Project of that name. -/
def withProject {σ : Type} (name : String) (f : Project σ → Project σ) :
    List (Project σ) → List (Project σ)
  | [] => []
  | p :: ps => if p.Name = name then f p :: ps else p :: withProject name f ps

/-- Modelled from the spec: `AddFinding` of section 4.2, appending to the Findings
sequence. -/
def Project.AddFinding {σ : Type} (p : Project σ) (finding : Finding σ) : Project σ :=
  { p with Findings := p.Findings ++ [finding] }

/-- Modelled from the spec: `AddOwner` of section 4.2, inserting into the Owners set. -/
def Project.AddOwner {σ : Type} (p : Project σ) (team : TeamConfig) : Project σ :=
  { p with Owners := insert team p.Owners }

/-- Set or overwrite the entry of a key in an association list with unique keys. -/
def setLink (sourceName url : String) : List (String × String) → List (String × String)
  | [] => [(sourceName, url)]
  | (k, v) :: rest =>
    if k = sourceName then (sourceName, url) :: rest else (k, v) :: setLink sourceName url rest

/-- Modelled from the spec: `AddLink` of section 4.2, setting or overwriting the Links entry
of a source name. -/
def Project.AddLink {σ : Type} (p : Project σ) (sourceName url : String) : Project σ :=
  { p with Links := setLink sourceName url p.Links }

/-- Modelled from the spec: one open vulnerability alert of the provider response
(section 6): severity, ecosystem, package name, description and the CVE identifier when
present. -/
structure VulnerabilityAlert where
  Severity : String
  Ecosystem : String
  PackageName : String
  Description : String
  CVE : Option String
deriving DecidableEq, Repr

/-- Modelled from the spec: one repository of the provider response (section 6): name, URL,
open vulnerability alerts and owning team slugs, pages concatenated in response order. -/
structure Repository where
  Name : String
  Url : String
  Alerts : List VulnerabilityAlert
  TeamSlugs : List String
deriving DecidableEq, Repr

/-- Modelled from the spec: step 3 of section 4.4 for one alert. The two classification
tables of the provider (not among the sources) are the parameters `severityOf` and
`ecosystemOf`; an unknown label is a classification failure and yields no Finding. -/
def toFinding {σ : Type} (severityOf : String → Option σ)
    (ecosystemOf : String → Option FindingEcosystemType) (a : VulnerabilityAlert) :
    Option (Finding σ) :=
  match ecosystemOf a.Ecosystem, severityOf a.Severity with
  | some e, some s =>
    some ⟨e, s, a.Description, a.PackageName,
      match a.CVE with
      | some v => [(FindingIdentifierType.CVE, v)]
      | none => []⟩
  | _, _ => none

/-- Modelled from the spec: step 3 of section 4.4 over the alerts of a repository, with
`AddFinding` for every alert that classifies. Of the two dispositions the spec allows for a
classification failure, the model drops the single Finding. -/
def collectAlerts {σ : Type} (severityOf : String → Option σ)
    (ecosystemOf : String → Option FindingEcosystemType) (p : Project σ) :
    List VulnerabilityAlert → Project σ
  | [] => p
  | a :: rest =>
    match toFinding severityOf ecosystemOf a with
    | some f => collectAlerts severityOf ecosystemOf (p.AddFinding f) rest
    | none => collectAlerts severityOf ecosystemOf p rest

/-- Modelled from the spec: step 4 of section 4.4. Each owning team slug is looked up with
`GetTeamConfigBySlug`; on a nil error the team is added with `AddOwner`, otherwise the slug
is dropped. -/
def resolveOwners {σ : Type} (teams : List TeamConfig) (p : Project σ) :
    List String → Project σ
  | [] => p
  | slug :: rest =>
    match GetTeamConfigBySlug slug teams with
    | (team, none) => resolveOwners teams (p.AddOwner team) rest
    | (_, some _) => resolveOwners teams p rest

/-- Modelled from the spec: steps 1 to 4 of section 4.4 for one repository:
`FindOrCreateProject`, `AddLink("GitHub", url)`, the alerts, the owners. -/
def processRepository {σ : Type} (teams : List TeamConfig) (severityOf : String → Option σ)
    (ecosystemOf : String → Option FindingEcosystemType) (c : List (Project σ))
    (repo : Repository) : List (Project σ) :=
  withProject repo.Name
    (fun p => resolveOwners teams
      (collectAlerts severityOf ecosystemOf (p.AddLink "GitHub" repo.Url) repo.Alerts)
      repo.TeamSlugs)
    (FindOrCreateProject repo.Name c)

/-- An alert carries a known severity label and a known ecosystem label. -/
def knownLabel {σ : Type} (severityOf : String → Option σ)
    (ecosystemOf : String → Option FindingEcosystemType) (a : VulnerabilityAlert) : Bool :=
  (severityOf a.Severity).isSome && (ecosystemOf a.Ecosystem).isSome

/-- Modelled from the spec: the classification failure of section 7, surfaced for the first
alert of the run that does not classify. -/
def classificationError {σ : Type} (severityOf : String → Option σ)
    (ecosystemOf : String → Option FindingEcosystemType) : List VulnerabilityAlert → GoError
  | [] => none
  | a :: rest =>
    match toFinding severityOf ecosystemOf a with
    | some _ => classificationError severityOf ecosystemOf rest
    | none =>
      some ("unknown label " ++ a.Severity ++ " or " ++ a.Ecosystem ++ " for " ++ a.PackageName)

/-- Modelled from the spec: `CollectFindings` of the GitHub provider (sections 4.3 and 4.4,
`querying/github.go` is not among the sources), run on a provider response that was fetched
and decoded in full. It processes the repositories in response order and surfaces a
classification failure as its error. The completion signal is not modelled. -/
def CollectFindings {σ : Type} (teams : List TeamConfig) (severityOf : String → Option σ)
    (ecosystemOf : String → Option FindingEcosystemType) (response : List Repository)
    (projects : ProjectCollection σ) : ProjectCollection σ × GoError :=
  (⟨response.foldl (processRepository teams severityOf ecosystemOf) projects.Projects⟩,
    classificationError severityOf ecosystemOf (response.flatMap (fun r => r.Alerts)))

/-- The per-repository mutation of `processRepository`, applied to the Project that
`FindOrCreateProject` hands back. -/
def repoUpdate {σ : Type} (teams : List TeamConfig) (severityOf : String → Option σ)
    (ecosystemOf : String → Option FindingEcosystemType) (repo : Repository)
    (p : Project σ) : Project σ :=
  resolveOwners teams
    (collectAlerts severityOf ecosystemOf (p.AddLink "GitHub" repo.Url) repo.Alerts)
    repo.TeamSlugs

/-- The first Project of a given name, which is the one `FindOrCreateProject` hands back. -/
def findProject {σ : Type} (name : String) : List (Project σ) → Option (Project σ)
  | [] => none
  | p :: ps => if p.Name = name then some p else findProject name ps

/-- The entries of the response that report the repository name `name`, in response
order. -/
def reportsOf (name : String) (response : List Repository) : List Repository :=
  response.filter (fun r => decide (r.Name = name))

/-- The alerts the response reports for the repository name `name`, in response order. -/
def reportedAlerts (name : String) (response : List Repository) : List VulnerabilityAlert :=
  (reportsOf name response).flatMap (fun r => r.Alerts)

/-- The URL the response reports for the repository name `name`; when the name is reported
more than once, `AddLink` leaves the URL of its last report. -/
def reportedUrl (name : String) (response : List Repository) : Option String :=
  (reportsOf name response).getLast?.map (fun r => r.Url)

/-- The team slugs the response reports for the repository name `name`. -/
def reportedSlugs (name : String) (response : List Repository) : List String :=
  (response.filter (fun r => decide (r.Name = name))).flatMap (fun r => r.TeamSlugs)

/-- The Project the spec expects for a repository reported once. -/
def expectedProject {σ : Type} (teams : List TeamConfig) (severityOf : String → Option σ)
    (ecosystemOf : String → Option FindingEcosystemType) (repo : Repository) : Project σ :=
  resolveOwners teams
    (collectAlerts severityOf ecosystemOf
      ((NewProject repo.Name).AddLink "GitHub" repo.Url) repo.Alerts)
    repo.TeamSlugs

/-- The teams that step 4 resolves from a list of slugs: those `GetTeamConfigBySlug` returns
with a nil error. -/
def resolvedOwners (teams : List TeamConfig) : List String → Finset TeamConfig
  | [] => ∅
  | slug :: rest =>
    match GetTeamConfigBySlug slug teams with
    | (team, none) => insert team (resolvedOwners teams rest)
    | (_, some _) => resolvedOwners teams rest

/-- The Owners set of the first Project of a given name, empty when there is none. -/
def ownersOf {σ : Type} (name : String) : List (Project σ) → Finset TeamConfig
  | [] => ∅
  | p :: ps => if p.Name = name then p.Owners else ownersOf name ps

/-- What the spec asks of the Finding built from an alert: ecosystem and severity mapped to
the canonical enumerations, description and package name verbatim, the CVE identifier under
the CVE key. -/
def FindingOfAlert {σ : Type} (severityOf : String → Option σ)
    (ecosystemOf : String → Option FindingEcosystemType) (a : VulnerabilityAlert)
    (f : Finding σ) : Prop :=
  ecosystemOf a.Ecosystem = some f.Ecosystem ∧ severityOf a.Severity = some f.Severity ∧
  f.Description = a.Description ∧ f.PackageName = a.PackageName ∧
  (∀ v, a.CVE = some v → f.Identifiers = [(FindingIdentifierType.CVE, v)]) ∧
  (a.CVE = none → f.Identifiers = [])

/-! ## The scenario of `querying/github_test.go`

The JSON fixtures under `testdata/` are not among the sources; the raw labels `CRITICAL` and
`GO` and the number of the critical severity stand in for them. -/

/-- The repository `zaphod` with its one alert and the owning team slug `crew`. -/
def testRepository : Repository :=
  ⟨"zaphod", "https://heart-of-gold/zaphod",
    [⟨"CRITICAL", "GO", "improbability-drive",
      "The Improbability Drive is far too improbable.", some "CVE-42"⟩],
    ["crew"]⟩

/-- Classification of the severity labels of the scenario. -/
def testSeverityOf (label : String) : Option Nat :=
  if label = "CRITICAL" then some 0 else none

/-- Classification of the ecosystem labels of the scenario. -/
def testEcosystemOf (label : String) : Option FindingEcosystemType :=
  if label = "GO" then some "go" else none

/-- The team `crewTeam` of `TestCollectFindingsOwnerIsConfigured`. -/
def crewTeam : TeamConfig :=
  ⟨"Heart of Gold Crew", "crew", ""⟩

/-- The Project the tests expect, for a given Owners set. -/
def testProject (owners : Finset TeamConfig) : Project Nat :=
  ⟨"zaphod", [("GitHub", "https://heart-of-gold/zaphod")],
    [⟨"go", 0, "The Improbability Drive is far too improbable.", "improbability-drive",
      [(FindingIdentifierType.CVE, "CVE-42")]⟩],
    owners⟩

/-! ## Shared lemmas on the lookups -/

theorem GetTeamConfigBySlug_miss (slug : String) (teams : List TeamConfig)
    (h : ∀ t ∈ teams, t.Github_slug ≠ slug) :
    GetTeamConfigBySlug slug teams
      = (TeamConfig.zero, some ("No config found for team " ++ slug)) := by
  induction teams with
  | nil => rfl
  | cons t rest ih =>
    have ht : t.Github_slug ≠ slug := h t (List.mem_cons_self _ _)
    have hrest : ∀ x ∈ rest, x.Github_slug ≠ slug :=
      fun x hx => h x (List.mem_cons_of_mem _ hx)
    simp [GetTeamConfigBySlug, ht, ih hrest]

theorem GetTeamConfigBySlug_hit (slug : String) (pre post : List TeamConfig) (t : TeamConfig)
    (hpre : ∀ x ∈ pre, x.Github_slug ≠ slug) (ht : t.Github_slug = slug) :
    GetTeamConfigBySlug slug (pre ++ t :: post) = (t, none) := by
  induction pre with
  | nil => simp [GetTeamConfigBySlug, ht]
  | cons p rest ih =>
    have hp : p.Github_slug ≠ slug := hpre p (List.mem_cons_self _ _)
    have hrest : ∀ x ∈ rest, x.Github_slug ≠ slug :=
      fun x hx => hpre x (List.mem_cons_of_mem _ hx)
    simp [GetTeamConfigBySlug, hp, ih hrest]

/-- Every list with a matching element splits at its first matching element. -/
theorem exists_first_split {α : Type} (p : α → Prop) [DecidablePred p] (l : List α)
    (h : ∃ x ∈ l, p x) :
    ∃ pre x post, l = pre ++ x :: post ∧ (∀ y ∈ pre, ¬ p y) ∧ p x := by
  induction l with
  | nil => simp at h
  | cons a rest ih =>
    by_cases ha : p a
    · exact ⟨[], a, rest, rfl, by simp, ha⟩
    · have hrest : ∃ x ∈ rest, p x := by
        obtain ⟨x, hx, hpx⟩ := h
        rcases List.mem_cons.mp hx with rfl | hx
        · exact absurd hpx ha
        · exact ⟨x, hx, hpx⟩
      obtain ⟨pre, x, post, hl, hpre, hx⟩ := ih hrest
      refine ⟨a :: pre, x, post, by simp [hl], ?_, hx⟩
      intro y hy
      rcases List.mem_cons.mp hy with rfl | hy
      · exact ha
      · exact hpre y hy

theorem GetTeamConfigBySlug_err_iff (slug : String) (teams : List TeamConfig) :
    (GetTeamConfigBySlug slug teams).2 ≠ none ↔ ∀ t ∈ teams, t.Github_slug ≠ slug := by
  constructor
  · intro herr t ht hslug
    obtain ⟨pre, x, post, hl, hpre, hx⟩ :=
      exists_first_split (fun t : TeamConfig => t.Github_slug = slug) teams ⟨t, ht, hslug⟩
    rw [hl, GetTeamConfigBySlug_hit slug pre post x hpre hx] at herr
    exact herr rfl
  · intro h
    rw [GetTeamConfigBySlug_miss slug teams h]
    simp

theorem GetIconForSeverity_miss {σ : Type} (names : GoMap σ) (severity : σ)
    (catalog : List SeverityConfig) (h : ∀ c ∈ catalog, c.Label ≠ names.index severity) :
    GetIconForSeverity names severity catalog
      = ("", some ("No Slack icon available for severity " ++ names.index severity)) := by
  induction catalog with
  | nil => rfl
  | cons c rest ih =>
    have hc : c.Label ≠ names.index severity := h c (List.mem_cons_self _ _)
    have hrest : ∀ x ∈ rest, x.Label ≠ names.index severity :=
      fun x hx => h x (List.mem_cons_of_mem _ hx)
    simp [GetIconForSeverity, hc, ih hrest]

theorem GetIconForSeverity_hit {σ : Type} (names : GoMap σ) (severity : σ)
    (pre post : List SeverityConfig) (c : SeverityConfig)
    (hpre : ∀ x ∈ pre, x.Label ≠ names.index severity) (hc : c.Label = names.index severity) :
    GetIconForSeverity names severity (pre ++ c :: post) = (c.Slack_emoji, none) := by
  induction pre with
  | nil => simp [GetIconForSeverity, hc]
  | cons p rest ih =>
    have hp : p.Label ≠ names.index severity := hpre p (List.mem_cons_self _ _)
    have hrest : ∀ x ∈ rest, x.Label ≠ names.index severity :=
      fun x hx => hpre x (List.mem_cons_of_mem _ hx)
    simp [GetIconForSeverity, hp, ih hrest]

theorem GetIconForEcosystem_miss (lower : String → String) (e : FindingEcosystemType)
    (catalog : List EcosystemConfig) (h : ∀ c ∈ catalog, lower c.Label ≠ e) :
    GetIconForEcosystem lower e catalog
      = ("", some ("No Slack icon available for ecosystem " ++ e)) := by
  induction catalog with
  | nil => rfl
  | cons c rest ih =>
    have hc : lower c.Label ≠ e := h c (List.mem_cons_self _ _)
    have hrest : ∀ x ∈ rest, lower x.Label ≠ e :=
      fun x hx => h x (List.mem_cons_of_mem _ hx)
    simp [GetIconForEcosystem, hc, ih hrest]

theorem GetIconForEcosystem_hit (lower : String → String) (e : FindingEcosystemType)
    (pre post : List EcosystemConfig) (c : EcosystemConfig)
    (hpre : ∀ x ∈ pre, lower x.Label ≠ e) (hc : lower c.Label = e) :
    GetIconForEcosystem lower e (pre ++ c :: post) = (c.Slack_emoji, none) := by
  induction pre with
  | nil => simp [GetIconForEcosystem, hc]
  | cons p rest ih =>
    have hp : lower p.Label ≠ e := hpre p (List.mem_cons_self _ _)
    have hrest : ∀ x ∈ rest, lower x.Label ≠ e :=
      fun x hx => hpre x (List.mem_cons_of_mem _ hx)
    simp [GetIconForEcosystem, hp, ih hrest]

theorem GetIconForEcosystem_err_iff (lower : String → String) (e : FindingEcosystemType)
    (catalog : List EcosystemConfig) :
    (GetIconForEcosystem lower e catalog).2 ≠ none ↔ ∀ c ∈ catalog, lower c.Label ≠ e := by
  constructor
  · intro herr c hc hlabel
    obtain ⟨pre, x, post, hl, hpre, hx⟩ :=
      exists_first_split (fun c : EcosystemConfig => lower c.Label = e) catalog
        ⟨c, hc, hlabel⟩
    rw [hl, GetIconForEcosystem_hit lower e pre post x hpre hx] at herr
    exact herr rfl
  · intro h
    rw [GetIconForEcosystem_miss lower e catalog h]
    simp

/-- The code of `Char.ofNat n` is `n` below the surrogate range. -/
theorem ofNat_val_toNat (n : Nat) (h : n < 0xd800) : (Char.ofNat n).val.toNat = n := by
  have hv : n.isValidChar := Or.inl h
  rw [Char.ofNat, dif_pos hv]
  show (UInt32.ofNat' n _).toNat = n
  simp [UInt32.ofNat', UInt32.toNat]

/-- A lower-cased ASCII character is not an upper-case ASCII letter. -/
theorem toLower_not_isUpper (c : Char) : c.toLower.isUpper = false := by
  have key : ∀ d : Char, d.isUpper = decide (65 ≤ d.val.toNat ∧ d.val.toNat ≤ 90) := by
    intro d
    simp only [Char.isUpper, ge_iff_le, UInt32.le_def, BitVec.le_def]
    rw [Bool.decide_and]
    rfl
  rw [key]
  unfold Char.toLower
  simp only []
  have hn : c.toNat = c.val.toNat := rfl
  split
  · rename_i h
    rw [ofNat_val_toNat _ (by omega)]
    simp
    omega
  · rename_i h
    rw [hn] at h
    simpa using h

/-- The output of `ToLower` holds no upper-case ASCII letter. -/
theorem ToLower_no_upper (s : String) (c : Char) (hc : c ∈ (ToLower s).data) :
    ¬ (c.isUpper = true) := by
  simp only [ToLower, List.mem_map] at hc
  obtain ⟨d, _, rfl⟩ := hc
  simp [toLower_not_isUpper]

/-! ## `GetTeamConfigBySlug` -/

/-- C1: `GetTeamConfigBySlug` returns a non-nil error if and only if no team of the list has
`Github_slug` equal to the slug; the `TeamConfig` returned with an error is the zero value,
all three fields empty; on the empty list it returns an error for every slug. -/
theorem GetTeamConfigBySlug_error_iff_unlisted (slug : String) (teams : List TeamConfig) :
    ((GetTeamConfigBySlug slug teams).2 ≠ none ↔ ∀ t ∈ teams, t.Github_slug ≠ slug) ∧
    ((GetTeamConfigBySlug slug teams).2 ≠ none →
      (GetTeamConfigBySlug slug teams).1 = ⟨"", "", ""⟩) ∧
    (GetTeamConfigBySlug slug []).2 ≠ none := by
  refine ⟨GetTeamConfigBySlug_err_iff slug teams, ?_, by simp [GetTeamConfigBySlug]⟩
  intro herr
  rw [GetTeamConfigBySlug_miss slug teams ((GetTeamConfigBySlug_err_iff slug teams).mp herr)]
  rfl

/-- Witness of C1 on the slug `crew` and a list that does not configure it. -/
theorem GetTeamConfigBySlug_error_iff_unlisted_witness :
    (GetTeamConfigBySlug "crew" [⟨"Vogons", "vogons", "#poetry"⟩]).2 ≠ none ∧
    (GetTeamConfigBySlug "crew" [⟨"Vogons", "vogons", "#poetry"⟩]).1 = ⟨"", "", ""⟩ :=
  ⟨by decide,
    (GetTeamConfigBySlug_error_iff_unlisted "crew" [⟨"Vogons", "vogons", "#poetry"⟩]).2.1
      (by decide)⟩

/-- C2: when some team of the list has `Github_slug` equal to the slug, `GetTeamConfigBySlug`
returns a nil error and the first such team in list order, unchanged in all three fields;
the teams after it, whatever they are, do not affect the result. -/
theorem GetTeamConfigBySlug_first_match (slug : String) (teams : List TeamConfig)
    (h : ∃ t ∈ teams, t.Github_slug = slug) :
    ∃ pre t post, teams = pre ++ t :: post ∧ (∀ x ∈ pre, x.Github_slug ≠ slug) ∧
      t.Github_slug = slug ∧ GetTeamConfigBySlug slug teams = (t, none) ∧
      ∀ later, GetTeamConfigBySlug slug (pre ++ t :: later) = (t, none) := by
  obtain ⟨pre, t, post, hl, hpre, ht⟩ :=
    exists_first_split (fun t : TeamConfig => t.Github_slug = slug) teams h
  refine ⟨pre, t, post, hl, hpre, ht, ?_, ?_⟩
  · rw [hl]
    exact GetTeamConfigBySlug_hit slug pre post t hpre ht
  · intro later
    exact GetTeamConfigBySlug_hit slug pre later t hpre ht

/-- Witness of C2 on a list that configures the slug `crew` twice. -/
theorem GetTeamConfigBySlug_first_match_witness :
    ∃ pre t post,
      [(⟨"Vogons", "vogons", "#poetry"⟩ : TeamConfig), ⟨"Heart of Gold Crew", "crew", "#hog"⟩,
        ⟨"Other", "crew", "#other"⟩] = pre ++ t :: post ∧
      (∀ x ∈ pre, x.Github_slug ≠ "crew") ∧ t.Github_slug = "crew" ∧
      GetTeamConfigBySlug "crew"
        [⟨"Vogons", "vogons", "#poetry"⟩, ⟨"Heart of Gold Crew", "crew", "#hog"⟩,
          ⟨"Other", "crew", "#other"⟩] = (t, none) ∧
      ∀ later, GetTeamConfigBySlug "crew" (pre ++ t :: later) = (t, none) :=
  GetTeamConfigBySlug_first_match "crew"
    [⟨"Vogons", "vogons", "#poetry"⟩, ⟨"Heart of Gold Crew", "crew", "#hog"⟩,
      ⟨"Other", "crew", "#other"⟩]
    ⟨⟨"Heart of Gold Crew", "crew", "#hog"⟩, by decide, by decide⟩

/-! ## `GetIconForSeverity` -/

/-- C5: with `L = SeverityNames[severity]`, when some catalog entry has `Label` equal to `L`
then `GetIconForSeverity` returns a nil error and the `Slack_emoji` of the first such entry
in list order; it returns a non-nil error exactly when no entry has that label, and the icon
returned with an error is empty. -/
theorem GetIconForSeverity_first_exact_label {σ : Type} (SeverityNames : GoMap σ)
    (severity : σ) (catalog : List SeverityConfig) :
    ((∃ c ∈ catalog, c.Label = SeverityNames.index severity) →
      ∃ pre c post, catalog = pre ++ c :: post ∧
        (∀ x ∈ pre, x.Label ≠ SeverityNames.index severity) ∧
        c.Label = SeverityNames.index severity ∧
        GetIconForSeverity SeverityNames severity catalog = (c.Slack_emoji, none)) ∧
    ((GetIconForSeverity SeverityNames severity catalog).2 ≠ none ↔
      ∀ c ∈ catalog, c.Label ≠ SeverityNames.index severity) ∧
    ((GetIconForSeverity SeverityNames severity catalog).2 ≠ none →
      (GetIconForSeverity SeverityNames severity catalog).1 = "") := by
  have hiff : (GetIconForSeverity SeverityNames severity catalog).2 ≠ none ↔
      ∀ c ∈ catalog, c.Label ≠ SeverityNames.index severity := by
    constructor
    · intro herr c hc hlabel
      obtain ⟨pre, x, post, hl, hpre, hx⟩ :=
        exists_first_split (fun c : SeverityConfig => c.Label = SeverityNames.index severity)
          catalog ⟨c, hc, hlabel⟩
      rw [hl, GetIconForSeverity_hit SeverityNames severity pre post x hpre hx] at herr
      exact herr rfl
    · intro h
      rw [GetIconForSeverity_miss SeverityNames severity catalog h]
      simp
  refine ⟨?_, hiff, ?_⟩
  · intro h
    obtain ⟨pre, c, post, hl, hpre, hc⟩ :=
      exists_first_split (fun c : SeverityConfig => c.Label = SeverityNames.index severity)
        catalog h
    refine ⟨pre, c, post, hl, hpre, hc, ?_⟩
    rw [hl]
    exact GetIconForSeverity_hit SeverityNames severity pre post c hpre hc
  · intro herr
    rw [GetIconForSeverity_miss SeverityNames severity catalog (hiff.mp herr)]

/-- Witness of C5: severity `0` is named `Critical` and the catalog lists that label twice. -/
theorem GetIconForSeverity_first_exact_label_witness :
    ∃ pre c post,
      [(⟨"High", ":orange:"⟩ : SeverityConfig), ⟨"Critical", ":red:"⟩, ⟨"Critical", ":fire:"⟩]
        = pre ++ c :: post ∧
      (∀ x ∈ pre, x.Label ≠
        GoMap.index (fun n : Nat => if n = 0 then some "Critical" else none) 0) ∧
      c.Label = GoMap.index (fun n : Nat => if n = 0 then some "Critical" else none) 0 ∧
      GetIconForSeverity (fun n : Nat => if n = 0 then some "Critical" else none) 0
        [⟨"High", ":orange:"⟩, ⟨"Critical", ":red:"⟩, ⟨"Critical", ":fire:"⟩]
        = (c.Slack_emoji, none) :=
  (GetIconForSeverity_first_exact_label
    (fun n : Nat => if n = 0 then some "Critical" else none) 0
    [⟨"High", ":orange:"⟩, ⟨"Critical", ":red:"⟩, ⟨"Critical", ":fire:"⟩]).1
    ⟨⟨"Critical", ":red:"⟩, by decide, by decide⟩

/-- C6, as stated, fails: severity `9` has no entry in the name table, the catalog has an
entry whose `Label` is empty, and `GetIconForSeverity` returns that entry's icon with a nil
error. -/
theorem GetIconForSeverity_unnamed_severity_counterexample :
    (fun n : Nat => if n = 0 then some "Critical" else none) 9 = none ∧
    GetIconForSeverity (fun n : Nat => if n = 0 then some "Critical" else none) 9
      [⟨"Critical", ":red:"⟩, ⟨"", ":grey:"⟩] = (":grey:", none) := by
  decide

/-- C6, amended: for a severity with no entry in `SeverityNames` and a catalog with no entry
whose `Label` is the empty string, `GetIconForSeverity` returns a non-nil error and an empty
icon. -/
theorem GetIconForSeverity_unnamed_severity {σ : Type} (SeverityNames : GoMap σ)
    (severity : σ) (catalog : List SeverityConfig)
    (hname : SeverityNames severity = none) (hcat : ∀ c ∈ catalog, c.Label ≠ "") :
    (GetIconForSeverity SeverityNames severity catalog).2 ≠ none ∧
    (GetIconForSeverity SeverityNames severity catalog).1 = "" := by
  have hidx : SeverityNames.index severity = "" := by
    simp [GoMap.index, hname]
  have hmiss : ∀ c ∈ catalog, c.Label ≠ SeverityNames.index severity := by
    intro c hc
    rw [hidx]
    exact hcat c hc
  rw [GetIconForSeverity_miss SeverityNames severity catalog hmiss]
  simp

/-- Witness of the amended C6. -/
theorem GetIconForSeverity_unnamed_severity_witness :
    (GetIconForSeverity (fun n : Nat => if n = 0 then some "Critical" else none) 9
      [⟨"Critical", ":red:"⟩]).2 ≠ none ∧
    (GetIconForSeverity (fun n : Nat => if n = 0 then some "Critical" else none) 9
      [⟨"Critical", ":red:"⟩]).1 = "" :=
  GetIconForSeverity_unnamed_severity
    (fun n : Nat => if n = 0 then some "Critical" else none) 9 [⟨"Critical", ":red:"⟩]
    (by decide) (by decide)

/-! ## `GetIconForEcosystem` -/

/-- C4, as stated, fails: the catalog label `go` equals the ecosystem value `Go` when letter
case is ignored, yet `GetIconForEcosystem` returns an empty icon and a non-nil error,
because only the label is lower-cased. -/
theorem GetIconForEcosystem_case_insensitive_counterexample :
    ToLower "go" = ToLower "Go" ∧
    GetIconForEcosystem ToLower "Go" [⟨"go", ":gopher:"⟩]
      = ("", some "No Slack icon available for ecosystem Go") := by
  decide

/-- C4, amended: for an ecosystem value `e` that lower-casing leaves unchanged,
`GetIconForEcosystem` matches the catalog label case-insensitively. If some entry's `Label`
equals `e` when letter case is ignored, it returns a nil error and the `Slack_emoji` of the
first such entry in list order; if no entry's `Label` equals `e` ignoring case, it returns an
empty icon and a non-nil error. -/
theorem GetIconForEcosystem_case_insensitive_on_lower (lower : String → String)
    (e : FindingEcosystemType) (catalog : List EcosystemConfig) (he : lower e = e) :
    ((∃ c ∈ catalog, lower c.Label = lower e) →
      ∃ pre c post, catalog = pre ++ c :: post ∧
        (∀ x ∈ pre, lower x.Label ≠ lower e) ∧ lower c.Label = lower e ∧
        GetIconForEcosystem lower e catalog = (c.Slack_emoji, none)) ∧
    ((∀ c ∈ catalog, lower c.Label ≠ lower e) →
      (GetIconForEcosystem lower e catalog).1 = "" ∧
      (GetIconForEcosystem lower e catalog).2 ≠ none) := by
  rw [he]
  constructor
  · intro h
    obtain ⟨pre, c, post, hl, hpre, hc⟩ :=
      exists_first_split (fun c : EcosystemConfig => lower c.Label = e) catalog h
    refine ⟨pre, c, post, hl, hpre, hc, ?_⟩
    rw [hl]
    exact GetIconForEcosystem_hit lower e pre post c hpre hc
  · intro h
    rw [GetIconForEcosystem_miss lower e catalog h]
    simp

/-- Witness of the amended C4: the lower-case value `go` finds the label `Go`. -/
theorem GetIconForEcosystem_case_insensitive_on_lower_witness :
    ∃ pre c post,
      [(⟨"npm", ":npm:"⟩ : EcosystemConfig), ⟨"Go", ":gopher:"⟩, ⟨"GO", ":go2:"⟩]
        = pre ++ c :: post ∧
      (∀ x ∈ pre, ToLower x.Label ≠ ToLower "go") ∧ ToLower c.Label = ToLower "go" ∧
      GetIconForEcosystem ToLower "go"
        [⟨"npm", ":npm:"⟩, ⟨"Go", ":gopher:"⟩, ⟨"GO", ":go2:"⟩] = (c.Slack_emoji, none) :=
  (GetIconForEcosystem_case_insensitive_on_lower ToLower "go"
    [⟨"npm", ":npm:"⟩, ⟨"Go", ":gopher:"⟩, ⟨"GO", ":go2:"⟩] (by decide)).1
    ⟨⟨"Go", ":gopher:"⟩, by decide, by decide⟩

/-- C9, as stated, fails in its last clause: the ecosystem value `ℂ` is the upper-case
letter U+2102, which has no lower-case form, so lower-casing the catalog label `ℂ` leaves
it equal to the value and `GetIconForEcosystem` returns its icon with a nil error. -/
theorem GetIconForEcosystem_upper_without_lower_counterexample :
    "ℂ".data = [Char.ofNat 0x2102] ∧ ToLower "ℂ" = "ℂ" ∧
    GetIconForEcosystem ToLower "ℂ" [⟨"ℂ", ":c:"⟩] = (":c:", none) := by
  decide

/-- C9, amended: `GetIconForEcosystem` lower-cases only the catalog label and compares it
with the ecosystem value as given. When some entry has `lower Label = e` it returns a nil
error and the `Slack_emoji` of the first such entry in list order; it returns a non-nil
error exactly when there is no such entry, and the icon returned with an error is empty.
Hence it returns an error for every catalog exactly when `e` is not the lower-casing of any
string; this holds for every value containing a character that the output of `lower` never
contains, and so, for the ASCII lower-casing, for every value containing one of the letters
`A`..`Z`. -/
theorem GetIconForEcosystem_lowers_label_only (lower : String → String)
    (e : FindingEcosystemType) (catalog : List EcosystemConfig) :
    ((∃ c ∈ catalog, lower c.Label = e) →
      ∃ pre c post, catalog = pre ++ c :: post ∧
        (∀ x ∈ pre, lower x.Label ≠ e) ∧ lower c.Label = e ∧
        GetIconForEcosystem lower e catalog = (c.Slack_emoji, none)) ∧
    ((GetIconForEcosystem lower e catalog).2 ≠ none ↔ ∀ c ∈ catalog, lower c.Label ≠ e) ∧
    ((GetIconForEcosystem lower e catalog).2 ≠ none →
      (GetIconForEcosystem lower e catalog).1 = "") ∧
    ((∀ anyCatalog, (GetIconForEcosystem lower e anyCatalog).2 ≠ none) ↔
      ∀ s, lower s ≠ e) ∧
    (∀ upper : Char → Prop, (∀ s c, c ∈ (lower s).data → ¬ upper c) →
      (∃ c ∈ e.data, upper c) →
      ∀ anyCatalog, (GetIconForEcosystem lower e anyCatalog).2 ≠ none) ∧
    (∀ value : FindingEcosystemType, (∃ c ∈ value.data, c.isUpper = true) →
      ∀ anyCatalog, (GetIconForEcosystem ToLower value anyCatalog).2 ≠ none) := by
  refine ⟨?_, GetIconForEcosystem_err_iff lower e catalog, ?_, ?_, ?_, ?_⟩
  · intro h
    obtain ⟨pre, c, post, hl, hpre, hc⟩ :=
      exists_first_split (fun c : EcosystemConfig => lower c.Label = e) catalog h
    refine ⟨pre, c, post, hl, hpre, hc, ?_⟩
    rw [hl]
    exact GetIconForEcosystem_hit lower e pre post c hpre hc
  · intro herr
    rw [GetIconForEcosystem_miss lower e catalog
      ((GetIconForEcosystem_err_iff lower e catalog).mp herr)]
  · constructor
    · intro hall s hs
      have h1 := (GetIconForEcosystem_err_iff lower e [⟨s, ""⟩]).mp (hall [⟨s, ""⟩])
      exact h1 ⟨s, ""⟩ (List.mem_singleton.mpr rfl) hs
    · intro hnone anyCatalog
      rw [GetIconForEcosystem_err_iff]
      intro c _
      exact hnone c.Label
  · intro upper hlower hupper anyCatalog
    rw [GetIconForEcosystem_err_iff]
    intro c _ hlabel
    obtain ⟨u, hu, hup⟩ := hupper
    rw [← hlabel] at hu
    exact hlower c.Label u hu hup
  · intro value hupper anyCatalog
    rw [GetIconForEcosystem_err_iff]
    intro c _ hlabel
    obtain ⟨u, hu, hup⟩ := hupper
    rw [← hlabel] at hu
    exact ToLower_no_upper c.Label u hu hup

/-- Witness of the amended C9: the value `Go` holds the upper-case letter `G` and gets an
error from a catalog that lists both `go` and `Go`. -/
theorem GetIconForEcosystem_lowers_label_only_witness :
    (GetIconForEcosystem ToLower "Go" [⟨"go", ":gopher:"⟩, ⟨"Go", ":gopher:"⟩]).2 ≠ none :=
  (GetIconForEcosystem_lowers_label_only ToLower "go" []).2.2.2.2.2 "Go"
    ⟨'G', by decide, by decide⟩ [⟨"go", ":gopher:"⟩, ⟨"Go", ":gopher:"⟩]

/-! ## The log level of `rootCmd.PersistentPreRun` -/

/-- C10: the level chosen by `PersistentPreRun` is `zerolog.Disabled` whenever `quiet` is
true; otherwise it is `DEFAULT_LOG_LEVEL` for a count `v <= 0` and, for a default level from
which three steps fit in `int8`, `DEFAULT_LOG_LEVEL - min v 3` for `v >= 1`. With `quiet`
false the level never rises as `v` grows, each extra count up to three lowers it by one,
every count above 3 gives the level of 3, and the value converted to `int8` lies in `1..3`
and is unchanged by the conversion. -/
theorem PersistentPreRun_level (D : Int) (hD : -125 ≤ D ∧ D ≤ 127) :
    (∀ v, PersistentPreRun D true v = zerolog.Disabled) ∧
    (∀ v, v ≤ 0 → PersistentPreRun D false v = D) ∧
    (∀ v, 1 ≤ v → PersistentPreRun D false v = D - min v 3) ∧
    (∀ v w, v ≤ w → PersistentPreRun D false w ≤ PersistentPreRun D false v) ∧
    (∀ v, 0 ≤ v → v < 3 →
      PersistentPreRun D false (v + 1) = PersistentPreRun D false v - 1) ∧
    (∀ v, 3 < v → PersistentPreRun D false v = PersistentPreRun D false 3) ∧
    (∀ v, 0 < v → 1 ≤ clampVerbosity v ∧ clampVerbosity v ≤ 3 ∧
      wrapInt8 (clampVerbosity v) = clampVerbosity v) := by
  obtain ⟨hlo, hhi⟩ := hD
  have hpos : ∀ v, 1 ≤ v → PersistentPreRun D false v = D - min v 3 := by
    intro v hv
    unfold PersistentPreRun clampVerbosity wrapInt8
    have h0 : v > 0 := by omega
    simp only [Bool.false_eq_true, if_false, h0, if_true]
    split <;> omega
  have hnon : ∀ v, v ≤ 0 → PersistentPreRun D false v = D := by
    intro v hv
    unfold PersistentPreRun
    have h0 : ¬ v > 0 := by omega
    simp [h0]
  refine ⟨?_, hnon, hpos, ?_, ?_, ?_, ?_⟩
  · intro v
    simp [PersistentPreRun]
  · intro v w hvw
    by_cases hv : 1 ≤ v
    · rw [hpos v hv, hpos w (by omega)]
      omega
    · rw [hnon v (by omega)]
      by_cases hw : 1 ≤ w
      · rw [hpos w hw]
        omega
      · rw [hnon w (by omega)]
  · intro v hv0 hv3
    rw [hpos (v + 1) (by omega)]
    by_cases hv : 1 ≤ v
    · rw [hpos v hv]
      omega
    · rw [hnon v (by omega)]
      omega
  · intro v hv
    rw [hpos v (by omega), hpos 3 (by omega)]
    omega
  · intro v hv
    unfold clampVerbosity wrapInt8
    split <;> omega

/-- Witness of C10: the default level 2 and the count 5 give level -1. -/
theorem PersistentPreRun_level_witness : PersistentPreRun 2 false 5 = 2 - min 5 3 :=
  (PersistentPreRun_level 2 (by decide)).2.2.1 5 (by decide)

/-! ## Finding collection: lemmas on the model -/

theorem GetTeamConfigBySlug_ok_mem (slug : String) (teams : List TeamConfig) (t : TeamConfig)
    (h : GetTeamConfigBySlug slug teams = (t, none)) : t ∈ teams ∧ t.Github_slug = slug := by
  by_cases hex : ∃ x ∈ teams, x.Github_slug = slug
  · obtain ⟨pre, x, post, hl, hpre, hx⟩ :=
      exists_first_split (fun t : TeamConfig => t.Github_slug = slug) teams hex
    rw [hl, GetTeamConfigBySlug_hit slug pre post x hpre hx] at h
    have hxt : x = t := by simpa using h
    subst hxt
    exact ⟨by simp [hl], hx⟩
  · have hmiss : ∀ x ∈ teams, x.Github_slug ≠ slug := fun x hx hs => hex ⟨x, hx, hs⟩
    rw [GetTeamConfigBySlug_miss slug teams hmiss] at h
    simp at h

theorem GetTeamConfigBySlug_ok_of_mem (slug : String) (teams : List TeamConfig)
    (h : ∃ t ∈ teams, t.Github_slug = slug) :
    GetTeamConfigBySlug slug teams = ((GetTeamConfigBySlug slug teams).1, none) := by
  obtain ⟨pre, x, post, hl, hpre, hx⟩ :=
    exists_first_split (fun t : TeamConfig => t.Github_slug = slug) teams h
  rw [hl, GetTeamConfigBySlug_hit slug pre post x hpre hx]

theorem mem_resolvedOwners (teams : List TeamConfig) (slugs : List String) (t : TeamConfig) :
    t ∈ resolvedOwners teams slugs ↔ ∃ s ∈ slugs, GetTeamConfigBySlug s teams = (t, none) := by
  induction slugs with
  | nil => simp [resolvedOwners]
  | cons s rest ih =>
    unfold resolvedOwners
    rcases hlook : GetTeamConfigBySlug s teams with ⟨team, _ | msg⟩
    · simp only [Finset.mem_insert, ih, List.mem_cons, exists_eq_or_imp, hlook, Prod.mk.injEq,
        and_true]
      constructor
      · rintro (h | h)
        · exact Or.inl h.symm
        · exact Or.inr h
      · rintro (h | h)
        · exact Or.inl h.symm
        · exact Or.inr h
    · simp [ih, hlook]

theorem resolvedOwners_append (teams : List TeamConfig) (a b : List String) :
    resolvedOwners teams (a ++ b) = resolvedOwners teams a ∪ resolvedOwners teams b := by
  ext t
  simp only [mem_resolvedOwners, Finset.mem_union, List.mem_append]
  constructor
  · rintro ⟨s, hs | hs, h⟩
    · exact Or.inl ⟨s, hs, h⟩
    · exact Or.inr ⟨s, hs, h⟩
  · rintro (⟨s, hs, h⟩ | ⟨s, hs, h⟩)
    · exact ⟨s, Or.inl hs, h⟩
    · exact ⟨s, Or.inr hs, h⟩

theorem collectAlerts_fields {σ : Type} (severityOf : String → Option σ)
    (ecosystemOf : String → Option FindingEcosystemType) (p : Project σ)
    (alerts : List VulnerabilityAlert) :
    (collectAlerts severityOf ecosystemOf p alerts).Name = p.Name ∧
    (collectAlerts severityOf ecosystemOf p alerts).Links = p.Links ∧
    (collectAlerts severityOf ecosystemOf p alerts).Owners = p.Owners ∧
    (collectAlerts severityOf ecosystemOf p alerts).Findings
      = p.Findings ++ alerts.filterMap (toFinding severityOf ecosystemOf) := by
  induction alerts generalizing p with
  | nil => simp [collectAlerts]
  | cons a rest ih =>
    unfold collectAlerts
    rcases hf : toFinding severityOf ecosystemOf a with _ | f
    · simpa [List.filterMap_cons, hf] using ih p
    · simpa [List.filterMap_cons, hf, Project.AddFinding] using ih (p.AddFinding f)

theorem resolveOwners_fields {σ : Type} (teams : List TeamConfig) (p : Project σ)
    (slugs : List String) :
    (resolveOwners teams p slugs).Name = p.Name ∧
    (resolveOwners teams p slugs).Links = p.Links ∧
    (resolveOwners teams p slugs).Findings = p.Findings ∧
    (resolveOwners teams p slugs).Owners = p.Owners ∪ resolvedOwners teams slugs := by
  induction slugs generalizing p with
  | nil => simp [resolveOwners, resolvedOwners]
  | cons s rest ih =>
    unfold resolveOwners resolvedOwners
    rcases hlook : GetTeamConfigBySlug s teams with ⟨team, _ | msg⟩
    · obtain ⟨h1, h2, h3, h4⟩ := ih (p.AddOwner team)
      refine ⟨h1, h2, h3, ?_⟩
      rw [h4]
      ext t
      simp only [Project.AddOwner, Finset.mem_union, Finset.mem_insert]
      tauto
    · exact ih p

/-- The per-repository mutation keeps the name and adds the resolved owners. -/
theorem repoUpdate_fields {σ : Type} (teams : List TeamConfig)
    (severityOf : String → Option σ) (ecosystemOf : String → Option FindingEcosystemType)
    (repo : Repository) (p : Project σ) :
    (resolveOwners teams
      (collectAlerts severityOf ecosystemOf (p.AddLink "GitHub" repo.Url) repo.Alerts)
      repo.TeamSlugs).Name = p.Name ∧
    (resolveOwners teams
      (collectAlerts severityOf ecosystemOf (p.AddLink "GitHub" repo.Url) repo.Alerts)
      repo.TeamSlugs).Owners = p.Owners ∪ resolvedOwners teams repo.TeamSlugs := by
  obtain ⟨r1, _, _, r4⟩ := resolveOwners_fields teams
    (collectAlerts severityOf ecosystemOf (p.AddLink "GitHub" repo.Url) repo.Alerts)
    repo.TeamSlugs
  obtain ⟨c1, _, c3, _⟩ := collectAlerts_fields severityOf ecosystemOf
    (p.AddLink "GitHub" repo.Url) repo.Alerts
  exact ⟨by rw [r1, c1]; rfl, by rw [r4, c3]; rfl⟩

theorem names_withProject {σ : Type} (name : String) (f : Project σ → Project σ)
    (hf : ∀ p, (f p).Name = p.Name) (c : List (Project σ)) :
    (withProject name f c).map (fun p => p.Name) = c.map (fun p => p.Name) := by
  induction c with
  | nil => rfl
  | cons p ps ih =>
    unfold withProject
    split
    · simp [hf]
    · simp [ih]

theorem any_name_iff {σ : Type} (name : String) (c : List (Project σ)) :
    c.any (fun p => decide (p.Name = name)) = true ↔ name ∈ c.map (fun p => p.Name) := by
  simp only [List.any_eq_true, decide_eq_true_eq, List.mem_map]

theorem names_FindOrCreateProject {σ : Type} (name : String) (c : List (Project σ)) :
    (FindOrCreateProject name c).map (fun p => p.Name)
      = if name ∈ c.map (fun p => p.Name) then c.map (fun p => p.Name)
        else c.map (fun p => p.Name) ++ [name] := by
  unfold FindOrCreateProject
  by_cases h : name ∈ c.map (fun p => p.Name)
  · rw [if_pos ((any_name_iff name c).mpr h), if_pos h]
  · have h2 : ¬ (c.any (fun p => decide (p.Name = name)) = true) :=
      fun h3 => h ((any_name_iff name c).mp h3)
    rw [if_neg h2, if_neg h]
    simp [NewProject]

theorem names_processRepository {σ : Type} (teams : List TeamConfig)
    (severityOf : String → Option σ) (ecosystemOf : String → Option FindingEcosystemType)
    (c : List (Project σ)) (repo : Repository) :
    (processRepository teams severityOf ecosystemOf c repo).map (fun p => p.Name)
      = if repo.Name ∈ c.map (fun p => p.Name) then c.map (fun p => p.Name)
        else c.map (fun p => p.Name) ++ [repo.Name] := by
  unfold processRepository
  rw [names_withProject _ _
    (fun p => (repoUpdate_fields teams severityOf ecosystemOf repo p).1)]
  exact names_FindOrCreateProject repo.Name c

theorem nodup_processRepository {σ : Type} (teams : List TeamConfig)
    (severityOf : String → Option σ) (ecosystemOf : String → Option FindingEcosystemType)
    (c : List (Project σ)) (repo : Repository) (hc : (c.map (fun p => p.Name)).Nodup) :
    ((processRepository teams severityOf ecosystemOf c repo).map (fun p => p.Name)).Nodup := by
  rw [names_processRepository]
  split
  · exact hc
  · rename_i h
    rw [List.nodup_append]
    refine ⟨hc, List.nodup_singleton _, ?_⟩
    intro a ha hb
    rw [List.mem_singleton] at hb
    exact h (hb ▸ ha)

theorem nodup_foldl_processRepository {σ : Type} (teams : List TeamConfig)
    (severityOf : String → Option σ) (ecosystemOf : String → Option FindingEcosystemType)
    (response : List Repository) (c : List (Project σ))
    (hc : (c.map (fun p => p.Name)).Nodup) :
    ((response.foldl (processRepository teams severityOf ecosystemOf) c).map
      (fun p => p.Name)).Nodup := by
  induction response generalizing c with
  | nil => exact hc
  | cons r rs ih =>
    exact ih _ (nodup_processRepository teams severityOf ecosystemOf c r hc)

theorem ownersOf_append_new {σ : Type} (n m : String) (c : List (Project σ)) :
    ownersOf n (c ++ [NewProject m]) = ownersOf n c := by
  induction c with
  | nil => simp [ownersOf, NewProject]
  | cons p ps ih => simp [ownersOf, ih]

theorem ownersOf_FindOrCreateProject {σ : Type} (n m : String) (c : List (Project σ)) :
    ownersOf n (FindOrCreateProject m c) = ownersOf n c := by
  unfold FindOrCreateProject
  split
  · rfl
  · exact ownersOf_append_new n m c

theorem ownersOf_withProject {σ : Type} (n m : String) (f : Project σ → Project σ)
    (A : Finset TeamConfig) (hf : ∀ p, (f p).Name = p.Name)
    (hA : ∀ p, (f p).Owners = p.Owners ∪ A) (c : List (Project σ)) :
    ownersOf n (withProject m f c)
      = if m = n ∧ n ∈ c.map (fun p => p.Name) then ownersOf n c ∪ A else ownersOf n c := by
  induction c with
  | nil => simp [withProject, ownersOf]
  | cons p ps ih =>
    unfold withProject
    by_cases hpm : p.Name = m
    · rw [if_pos hpm]
      by_cases hmn : m = n
      · have hpn : p.Name = n := hpm.trans hmn
        simp [ownersOf, hf, hA, hpn, hmn]
      · have hpn : ¬ p.Name = n := fun h => hmn (hpm.symm.trans h)
        simp [ownersOf, hf, hpn, hmn]
    · rw [if_neg hpm]
      by_cases hpn : p.Name = n
      · have hmn : ¬ m = n := fun h => hpm (hpn.trans h.symm)
        simp [ownersOf, hpn, hmn]
      · have hne : ¬ n = p.Name := fun h => hpn h.symm
        simp only [ownersOf, if_neg hpn, ih, List.map_cons, List.mem_cons, hne, false_or]

theorem ownersOf_processRepository {σ : Type} (teams : List TeamConfig)
    (severityOf : String → Option σ) (ecosystemOf : String → Option FindingEcosystemType)
    (n : String) (c : List (Project σ)) (repo : Repository) :
    ownersOf n (processRepository teams severityOf ecosystemOf c repo)
      = if repo.Name = n then ownersOf n c ∪ resolvedOwners teams repo.TeamSlugs
        else ownersOf n c := by
  unfold processRepository
  rw [ownersOf_withProject n repo.Name _ (resolvedOwners teams repo.TeamSlugs)
    (fun p => (repoUpdate_fields teams severityOf ecosystemOf repo p).1)
    (fun p => (repoUpdate_fields teams severityOf ecosystemOf repo p).2),
    ownersOf_FindOrCreateProject, names_FindOrCreateProject]
  by_cases h : repo.Name = n
  · subst h
    have hmem : repo.Name ∈ (if repo.Name ∈ c.map (fun p => p.Name)
        then c.map (fun p => p.Name) else c.map (fun p => p.Name) ++ [repo.Name]) := by
      split
      · assumption
      · simp
    rw [if_pos ⟨rfl, hmem⟩, if_pos rfl]
  · rw [if_neg (fun hh => h hh.1), if_neg h]

theorem reportedSlugs_cons (n : String) (r : Repository) (rs : List Repository) :
    reportedSlugs n (r :: rs)
      = if r.Name = n then r.TeamSlugs ++ reportedSlugs n rs else reportedSlugs n rs := by
  unfold reportedSlugs
  by_cases h : r.Name = n
  · simp [List.filter_cons, h]
  · simp [List.filter_cons, h]

theorem mem_reportedSlugs (n : String) (response : List Repository) (s : String) :
    s ∈ reportedSlugs n response ↔ ∃ r ∈ response, r.Name = n ∧ s ∈ r.TeamSlugs := by
  induction response with
  | nil => simp [reportedSlugs]
  | cons r rs ih =>
    rw [reportedSlugs_cons]
    by_cases h : r.Name = n
    · rw [if_pos h]
      simp only [List.mem_append, ih, List.mem_cons, exists_eq_or_imp, h, true_and]
    · rw [if_neg h]
      simp only [ih, List.mem_cons, exists_eq_or_imp, h, false_and, false_or]

theorem ownersOf_foldl_processRepository {σ : Type} (teams : List TeamConfig)
    (severityOf : String → Option σ) (ecosystemOf : String → Option FindingEcosystemType)
    (n : String) (response : List Repository) (c : List (Project σ)) :
    ownersOf n (response.foldl (processRepository teams severityOf ecosystemOf) c)
      = ownersOf n c ∪ resolvedOwners teams (reportedSlugs n response) := by
  induction response generalizing c with
  | nil => simp [reportedSlugs, resolvedOwners]
  | cons r rs ih =>
    rw [List.foldl_cons, ih, ownersOf_processRepository, reportedSlugs_cons]
    by_cases h : r.Name = n
    · rw [if_pos h, if_pos h, resolvedOwners_append, Finset.union_assoc]
    · rw [if_neg h, if_neg h]

theorem ownersOf_of_mem_nodup {σ : Type} (c : List (Project σ)) (p : Project σ)
    (hc : (c.map (fun p => p.Name)).Nodup) (hp : p ∈ c) : ownersOf p.Name c = p.Owners := by
  induction c with
  | nil => simp at hp
  | cons q qs ih =>
    rw [List.map_cons, List.nodup_cons] at hc
    rcases List.mem_cons.mp hp with rfl | hmem
    · simp [ownersOf]
    · have hne : ¬ q.Name = p.Name := by
        intro h
        apply hc.1
        rw [h]
        exact List.mem_map.mpr ⟨p, hmem, rfl⟩
      simp only [ownersOf, if_neg hne]
      exact ih hc.2 hmem

theorem exists_of_mem_ownersOf {σ : Type} (n : String) (c : List (Project σ))
    (t : TeamConfig) (ht : t ∈ ownersOf n c) : ∃ p ∈ c, p.Name = n := by
  induction c with
  | nil => simp [ownersOf] at ht
  | cons q qs ih =>
    by_cases h : q.Name = n
    · exact ⟨q, List.mem_cons_self _ _, h⟩
    · simp only [ownersOf, if_neg h] at ht
      obtain ⟨p, hp, hn⟩ := ih ht
      exact ⟨p, List.mem_cons_of_mem _ hp, hn⟩

/-- On a fresh collection, the Owners of every resulting Project are the teams resolved from
the slugs reported for its name. -/
theorem CollectFindings_owners {σ : Type} (teams : List TeamConfig)
    (severityOf : String → Option σ) (ecosystemOf : String → Option FindingEcosystemType)
    (response : List Repository) (p : Project σ)
    (hp : p ∈ (CollectFindings teams severityOf ecosystemOf response
      (NewProjectCollection σ)).1.Projects) :
    p.Owners = resolvedOwners teams (reportedSlugs p.Name response) := by
  have hnd := nodup_foldl_processRepository teams severityOf ecosystemOf response
    ([] : List (Project σ)) (by simp)
  have h1 := ownersOf_of_mem_nodup _ p hnd hp
  rw [ownersOf_foldl_processRepository] at h1
  rw [← h1]
  simp [ownersOf]

theorem resolveOwners_unconfigured {σ : Type} (teams : List TeamConfig) (q : Project σ)
    (slug : String) (rest : List String) (h : ∀ t ∈ teams, t.Github_slug ≠ slug) :
    resolveOwners teams q (slug :: rest) = resolveOwners teams q rest := by
  rw [resolveOwners, GetTeamConfigBySlug_miss slug teams h]

/-! ## `CollectFindings`: owners -/

/-- C3: after `CollectFindings` on a fresh collection, every element of a Project's Owners is
a configured Team, namely one that `GetTeamConfigBySlug` returned with a nil error for a slug
reported for that Project; Owners is empty when none of the reported slugs is configured; and
a slug that matches no configured Team's `Github_slug` adds nothing in the owner step. -/
theorem CollectFindings_owners_are_configured {σ : Type} (teams : List TeamConfig)
    (severityOf : String → Option σ) (ecosystemOf : String → Option FindingEcosystemType)
    (response : List Repository) (p : Project σ)
    (hp : p ∈ (CollectFindings teams severityOf ecosystemOf response
      (NewProjectCollection σ)).1.Projects) :
    (∀ o ∈ p.Owners, o ∈ teams ∧
      ∃ s ∈ reportedSlugs p.Name response, GetTeamConfigBySlug s teams = (o, none)) ∧
    ((∀ s ∈ reportedSlugs p.Name response, ∀ t ∈ teams, t.Github_slug ≠ s) →
      p.Owners = ∅) ∧
    (∀ (q : Project σ) (slug : String) (rest : List String),
      (∀ t ∈ teams, t.Github_slug ≠ slug) →
      resolveOwners teams q (slug :: rest) = resolveOwners teams q rest) := by
  have hown := CollectFindings_owners teams severityOf ecosystemOf response p hp
  refine ⟨?_, ?_, ?_⟩
  · intro o ho
    rw [hown, mem_resolvedOwners] at ho
    obtain ⟨s, hs, hlook⟩ := ho
    exact ⟨(GetTeamConfigBySlug_ok_mem s teams o hlook).1, s, hs, hlook⟩
  · intro hnone
    rw [hown]
    apply Finset.eq_empty_of_forall_not_mem
    intro o ho
    rw [mem_resolvedOwners] at ho
    obtain ⟨s, hs, hlook⟩ := ho
    obtain ⟨hmem, hslug⟩ := GetTeamConfigBySlug_ok_mem s teams o hlook
    exact hnone s hs o hmem hslug
  · intro q slug rest h
    exact resolveOwners_unconfigured teams q slug rest h

/-- C7: when a repository of the response reports a slug equal to the `Github_slug` of a
configured Team, the result holds exactly one Project of that repository's name, the lookup
of the slug has a nil error, and the Team it returns is in that Project's Owners; when no
other slug is reported for the repository, Owners is exactly that one Team. -/
theorem CollectFindings_owner_is_configured {σ : Type} (teams : List TeamConfig)
    (severityOf : String → Option σ) (ecosystemOf : String → Option FindingEcosystemType)
    (response : List Repository) (repo : Repository) (slug : String)
    (hrepo : repo ∈ response) (hslug : slug ∈ repo.TeamSlugs)
    (hcfg : ∃ t ∈ teams, t.Github_slug = slug) :
    ∃ p ∈ (CollectFindings teams severityOf ecosystemOf response
        (NewProjectCollection σ)).1.Projects,
      p.Name = repo.Name ∧
      (∀ q ∈ (CollectFindings teams severityOf ecosystemOf response
        (NewProjectCollection σ)).1.Projects, q.Name = repo.Name → q = p) ∧
      (GetTeamConfigBySlug slug teams).2 = none ∧
      (GetTeamConfigBySlug slug teams).1 ∈ p.Owners ∧
      ((∀ s ∈ reportedSlugs repo.Name response, s = slug) →
        p.Owners = {(GetTeamConfigBySlug slug teams).1}) := by
  have hlook := GetTeamConfigBySlug_ok_of_mem slug teams hcfg
  have hrep : slug ∈ reportedSlugs repo.Name response :=
    (mem_reportedSlugs repo.Name response slug).mpr ⟨repo, hrepo, rfl, hslug⟩
  have hres : (GetTeamConfigBySlug slug teams).1
      ∈ resolvedOwners teams (reportedSlugs repo.Name response) :=
    (mem_resolvedOwners teams _ _).mpr ⟨slug, hrep, hlook⟩
  have hnd := nodup_foldl_processRepository teams severityOf ecosystemOf response
    ([] : List (Project σ)) (by simp)
  have hof : (GetTeamConfigBySlug slug teams).1 ∈ ownersOf repo.Name
      (response.foldl (processRepository teams severityOf ecosystemOf) []) := by
    rw [ownersOf_foldl_processRepository]
    exact Finset.mem_union_right _ hres
  obtain ⟨p, hp, hname⟩ := exists_of_mem_ownersOf _ _ _ hof
  have hown := CollectFindings_owners teams severityOf ecosystemOf response p hp
  rw [hname] at hown
  refine ⟨p, hp, hname, ?_, ?_, ?_, ?_⟩
  · intro q hq hqn
    exact List.inj_on_of_nodup_map hnd hq hp (hqn.trans hname.symm)
  · rw [hlook]
  · rw [hown]
    exact hres
  · intro honly
    rw [hown]
    ext o
    rw [mem_resolvedOwners, Finset.mem_singleton]
    constructor
    · rintro ⟨s, hs, hso⟩
      rw [honly s hs, hlook] at hso
      exact (Prod.mk.inj hso).1.symm
    · intro ho
      exact ⟨slug, hrep, by rw [ho]; exact hlook⟩

/-! ## `CollectFindings`: projects, links and findings -/

theorem withProject_append_fresh {σ : Type} (n : String) (f : Project σ → Project σ)
    (c : List (Project σ)) (q : Project σ) (hc : n ∉ c.map (fun p => p.Name))
    (hq : q.Name = n) : withProject n f (c ++ [q]) = c ++ [f q] := by
  induction c with
  | nil => simp [withProject, hq]
  | cons p ps ih =>
    rw [List.map_cons, List.mem_cons, not_or] at hc
    have hp : ¬ p.Name = n := fun h => hc.1 h.symm
    simp [withProject, hp, ih hc.2]

theorem processRepository_fresh {σ : Type} (teams : List TeamConfig)
    (severityOf : String → Option σ) (ecosystemOf : String → Option FindingEcosystemType)
    (c : List (Project σ)) (repo : Repository) (hc : repo.Name ∉ c.map (fun p => p.Name)) :
    processRepository teams severityOf ecosystemOf c repo
      = c ++ [expectedProject teams severityOf ecosystemOf repo] := by
  unfold processRepository FindOrCreateProject
  have h2 : ¬ (c.any (fun p => decide (p.Name = repo.Name)) = true) :=
    fun h3 => hc ((any_name_iff repo.Name c).mp h3)
  rw [if_neg h2, withProject_append_fresh repo.Name _ c _ hc rfl]
  rfl

theorem foldl_processRepository_fresh {σ : Type} (teams : List TeamConfig)
    (severityOf : String → Option σ) (ecosystemOf : String → Option FindingEcosystemType)
    (response : List Repository) (c : List (Project σ))
    (hnames : (response.map (fun r => r.Name)).Nodup)
    (hc : ∀ r ∈ response, r.Name ∉ c.map (fun p => p.Name)) :
    response.foldl (processRepository teams severityOf ecosystemOf) c
      = c ++ response.map (expectedProject teams severityOf ecosystemOf) := by
  induction response generalizing c with
  | nil => simp
  | cons r rs ih =>
    rw [List.map_cons, List.nodup_cons] at hnames
    rw [List.foldl_cons, processRepository_fresh teams severityOf ecosystemOf c r
      (hc r (List.mem_cons_self _ _)), ih _ hnames.2]
    · simp
    · intro r2 hr2
      rw [List.map_append, List.mem_append, not_or]
      refine ⟨hc r2 (List.mem_cons_of_mem _ hr2), ?_⟩
      have hname : (expectedProject teams severityOf ecosystemOf r).Name = r.Name :=
        ((resolveOwners_fields teams _ r.TeamSlugs).1).trans
          ((collectAlerts_fields severityOf ecosystemOf _ r.Alerts).1)
      simp only [List.map_cons, List.map_nil, List.mem_singleton, hname]
      intro h
      exact hnames.1 (h ▸ List.mem_map.mpr ⟨r2, hr2, rfl⟩)

theorem expectedProject_fields {σ : Type} (teams : List TeamConfig)
    (severityOf : String → Option σ) (ecosystemOf : String → Option FindingEcosystemType)
    (repo : Repository) :
    (expectedProject teams severityOf ecosystemOf repo).Name = repo.Name ∧
    (expectedProject teams severityOf ecosystemOf repo).Links = [("GitHub", repo.Url)] ∧
    (expectedProject teams severityOf ecosystemOf repo).Findings
      = repo.Alerts.filterMap (toFinding severityOf ecosystemOf) := by
  obtain ⟨r1, r2, r3, _⟩ := resolveOwners_fields teams
    (collectAlerts severityOf ecosystemOf
      ((NewProject repo.Name : Project σ).AddLink "GitHub" repo.Url) repo.Alerts)
    repo.TeamSlugs
  obtain ⟨c1, c2, _, c4⟩ := collectAlerts_fields severityOf ecosystemOf
    ((NewProject repo.Name : Project σ).AddLink "GitHub" repo.Url) repo.Alerts
  unfold expectedProject
  refine ⟨r1.trans c1, r2.trans c2, r3.trans (c4.trans ?_)⟩
  simp [Project.AddLink, NewProject]

theorem toFinding_of_known {σ : Type} (severityOf : String → Option σ)
    (ecosystemOf : String → Option FindingEcosystemType) (a : VulnerabilityAlert)
    (h : knownLabel severityOf ecosystemOf a = true) :
    ∃ f, toFinding severityOf ecosystemOf a = some f ∧
      FindingOfAlert severityOf ecosystemOf a f := by
  rw [knownLabel, Bool.and_eq_true, Option.isSome_iff_exists, Option.isSome_iff_exists] at h
  obtain ⟨⟨sv, hsv⟩, ⟨ec, hec⟩⟩ := h
  have hf : toFinding severityOf ecosystemOf a
      = some ⟨ec, sv, a.Description, a.PackageName,
          match a.CVE with
          | some v => [(FindingIdentifierType.CVE, v)]
          | none => []⟩ := by
    simp only [toFinding, hsv, hec]
  refine ⟨_, hf, ?_⟩
  refine ⟨hec, hsv, rfl, rfl, ?_, ?_⟩
  · intro v hv
    simp [hv]
  · intro hv
    simp [hv]

theorem forall₂_filterMap_toFinding {σ : Type} (severityOf : String → Option σ)
    (ecosystemOf : String → Option FindingEcosystemType) (alerts : List VulnerabilityAlert)
    (h : ∀ a ∈ alerts, knownLabel severityOf ecosystemOf a = true) :
    List.Forall₂ (FindingOfAlert severityOf ecosystemOf) alerts
      (alerts.filterMap (toFinding severityOf ecosystemOf)) := by
  induction alerts with
  | nil => simp
  | cons a rest ih =>
    obtain ⟨f, hf, hfa⟩ := toFinding_of_known severityOf ecosystemOf a
      (h a (List.mem_cons_self _ _))
    rw [List.filterMap_cons, hf]
    exact List.Forall₂.cons hfa (ih (fun b hb => h b (List.mem_cons_of_mem _ hb)))

theorem repoUpdate_all_fields {σ : Type} (teams : List TeamConfig)
    (severityOf : String → Option σ) (ecosystemOf : String → Option FindingEcosystemType)
    (repo : Repository) (p : Project σ) :
    (repoUpdate teams severityOf ecosystemOf repo p).Name = p.Name ∧
    (repoUpdate teams severityOf ecosystemOf repo p).Links
      = setLink "GitHub" repo.Url p.Links ∧
    (repoUpdate teams severityOf ecosystemOf repo p).Findings
      = p.Findings ++ repo.Alerts.filterMap (toFinding severityOf ecosystemOf) := by
  obtain ⟨r1, r2, r3, _⟩ := resolveOwners_fields teams
    (collectAlerts severityOf ecosystemOf (p.AddLink "GitHub" repo.Url) repo.Alerts)
    repo.TeamSlugs
  obtain ⟨c1, c2, _, c4⟩ := collectAlerts_fields severityOf ecosystemOf
    (p.AddLink "GitHub" repo.Url) repo.Alerts
  unfold repoUpdate
  exact ⟨r1.trans c1, r2.trans c2, r3.trans c4⟩

theorem findProject_withProject {σ : Type} (n m : String) (f : Project σ → Project σ)
    (hf : ∀ p, (f p).Name = p.Name) (c : List (Project σ)) :
    findProject n (withProject m f c)
      = if m = n then (findProject n c).map f else findProject n c := by
  induction c with
  | nil => simp [withProject, findProject]
  | cons p ps ih =>
    unfold withProject
    by_cases hpm : p.Name = m
    · rw [if_pos hpm]
      by_cases hmn : m = n
      · have hpn : p.Name = n := hpm.trans hmn
        simp [findProject, hf, hpn, hmn]
      · have hpn : ¬ p.Name = n := fun h => hmn (hpm.symm.trans h)
        simp [findProject, hf, hpn, hmn]
    · rw [if_neg hpm]
      by_cases hpn : p.Name = n
      · have hmn : ¬ m = n := fun h => hpm (hpn.trans h.symm)
        simp [findProject, hpn, hmn]
      · simp only [findProject, if_neg hpn, ih]

theorem findProject_eq_none {σ : Type} (n : String) (c : List (Project σ))
    (h : n ∉ c.map (fun p => p.Name)) : findProject n c = none := by
  induction c with
  | nil => rfl
  | cons p ps ih =>
    rw [List.map_cons, List.mem_cons, not_or] at h
    have hp : ¬ p.Name = n := fun hh => h.1 hh.symm
    simp only [findProject, if_neg hp]
    exact ih h.2

theorem findProject_some_of_mem {σ : Type} (n : String) (c : List (Project σ))
    (h : n ∈ c.map (fun p => p.Name)) : ∃ p, findProject n c = some p := by
  induction c with
  | nil => simp at h
  | cons q qs ih =>
    by_cases hq : q.Name = n
    · exact ⟨q, by simp [findProject, hq]⟩
    · rw [List.map_cons, List.mem_cons] at h
      rcases h with h | h
      · exact absurd h.symm hq
      · obtain ⟨p, hp⟩ := ih h
        exact ⟨p, by simp only [findProject, if_neg hq, hp]⟩

theorem findProject_append_new {σ : Type} (n m : String) (c : List (Project σ))
    (hm : m ∉ c.map (fun p => p.Name)) :
    findProject n (c ++ [NewProject m])
      = if m = n then some (NewProject n) else findProject n c := by
  induction c with
  | nil =>
    by_cases h : m = n
    · subst h
      simp [findProject, NewProject]
    · simp [findProject, NewProject, h]
  | cons p ps ih =>
    rw [List.map_cons, List.mem_cons, not_or] at hm
    by_cases hp : p.Name = n
    · have hmn : ¬ m = n := fun h => hm.1 (h.trans hp.symm)
      simp [findProject, hp, hmn]
    · rw [List.cons_append]
      simp only [findProject, if_neg hp]
      exact ih hm.2

theorem findProject_FindOrCreateProject {σ : Type} (n m : String) (c : List (Project σ)) :
    findProject n (FindOrCreateProject m c)
      = if m = n then some ((findProject n c).getD (NewProject n)) else findProject n c := by
  unfold FindOrCreateProject
  by_cases hany : c.any (fun p => decide (p.Name = m)) = true
  · rw [if_pos hany]
    by_cases h : m = n
    · subst h
      obtain ⟨p, hp⟩ := findProject_some_of_mem m c ((any_name_iff m c).mp hany)
      simp [hp]
    · rw [if_neg h]
  · rw [if_neg hany]
    have hm : m ∉ c.map (fun p => p.Name) := fun h => hany ((any_name_iff m c).mpr h)
    rw [findProject_append_new n m c hm]
    by_cases h : m = n
    · subst h
      simp [findProject_eq_none m c hm]
    · simp [h]

theorem findProject_processRepository {σ : Type} (teams : List TeamConfig)
    (severityOf : String → Option σ) (ecosystemOf : String → Option FindingEcosystemType)
    (n : String) (c : List (Project σ)) (repo : Repository) :
    findProject n (processRepository teams severityOf ecosystemOf c repo)
      = if repo.Name = n then
          some (repoUpdate teams severityOf ecosystemOf repo
            ((findProject n c).getD (NewProject n)))
        else findProject n c := by
  have hproc : processRepository teams severityOf ecosystemOf c repo
      = withProject repo.Name (repoUpdate teams severityOf ecosystemOf repo)
          (FindOrCreateProject repo.Name c) := rfl
  rw [hproc, findProject_withProject n repo.Name _
    (fun p => (repoUpdate_all_fields teams severityOf ecosystemOf repo p).1),
    findProject_FindOrCreateProject]
  by_cases h : repo.Name = n
  · simp [h]
  · simp [h]

theorem reportsOf_cons (n : String) (r : Repository) (rs : List Repository) :
    reportsOf n (r :: rs) = if r.Name = n then r :: reportsOf n rs else reportsOf n rs := by
  unfold reportsOf
  by_cases h : r.Name = n
  · simp [List.filter_cons, h]
  · simp [List.filter_cons, h]

theorem mem_reportsOf (n : String) (response : List Repository) (r : Repository) :
    r ∈ reportsOf n response ↔ r ∈ response ∧ r.Name = n := by
  simp [reportsOf]

/-- The first Project of a name after the run: the reports of that name applied in response
order to the Project found before the run, or to a new one. -/
theorem findProject_foldl_processRepository {σ : Type} (teams : List TeamConfig)
    (severityOf : String → Option σ) (ecosystemOf : String → Option FindingEcosystemType)
    (n : String) (response : List Repository) (c : List (Project σ)) :
    findProject n (response.foldl (processRepository teams severityOf ecosystemOf) c)
      = if reportsOf n response = [] then findProject n c
        else some ((reportsOf n response).foldl
          (fun p r => repoUpdate teams severityOf ecosystemOf r p)
          ((findProject n c).getD (NewProject n))) := by
  induction response generalizing c with
  | nil => simp [reportsOf]
  | cons r rs ih =>
    rw [List.foldl_cons, ih, findProject_processRepository, reportsOf_cons]
    by_cases h : r.Name = n
    · rw [if_pos h, if_pos h]
      by_cases hrs : reportsOf n rs = []
      · simp [hrs]
      · simp [hrs]
    · rw [if_neg h, if_neg h]

theorem foldl_repoUpdate_fields {σ : Type} (teams : List TeamConfig)
    (severityOf : String → Option σ) (ecosystemOf : String → Option FindingEcosystemType)
    (reps : List Repository) (start : Project σ) :
    (reps.foldl (fun p r => repoUpdate teams severityOf ecosystemOf r p) start).Name
      = start.Name ∧
    (reps.foldl (fun p r => repoUpdate teams severityOf ecosystemOf r p) start).Findings
      = start.Findings
        ++ (reps.flatMap (fun r => r.Alerts)).filterMap (toFinding severityOf ecosystemOf) := by
  induction reps generalizing start with
  | nil => simp
  | cons r rs ih =>
    obtain ⟨h1, _, h3⟩ := repoUpdate_all_fields teams severityOf ecosystemOf r start
    obtain ⟨i1, i2⟩ := ih (repoUpdate teams severityOf ecosystemOf r start)
    rw [List.foldl_cons]
    refine ⟨i1.trans h1, ?_⟩
    rw [i2, h3]
    simp [List.flatMap_cons, List.filterMap_append]

theorem foldl_repoUpdate_links {σ : Type} (teams : List TeamConfig)
    (severityOf : String → Option σ) (ecosystemOf : String → Option FindingEcosystemType)
    (reps : List Repository) (start : Project σ) (last : Repository)
    (hstart : start.Links = [] ∨ ∃ u, start.Links = [("GitHub", u)])
    (hlast : reps.getLast? = some last) :
    (reps.foldl (fun p r => repoUpdate teams severityOf ecosystemOf r p) start).Links
      = [("GitHub", last.Url)] := by
  induction reps generalizing start with
  | nil => simp at hlast
  | cons r rs ih =>
    have hupd : (repoUpdate teams severityOf ecosystemOf r start).Links
        = [("GitHub", r.Url)] := by
      rw [(repoUpdate_all_fields teams severityOf ecosystemOf r start).2.1]
      rcases hstart with h | ⟨u, h⟩
      · rw [h]
        rfl
      · rw [h]
        simp [setLink]
    rw [List.foldl_cons]
    cases rs with
    | nil =>
      simp only [List.getLast?_singleton, Option.some.injEq] at hlast
      subst hlast
      simpa using hupd
    | cons r2 rest =>
      rw [List.getLast?_cons_cons] at hlast
      exact ih _ (Or.inr ⟨r.Url, hupd⟩) hlast

theorem findProject_of_mem_nodup {σ : Type} (c : List (Project σ)) (p : Project σ)
    (hc : (c.map (fun p => p.Name)).Nodup) (hp : p ∈ c) : findProject p.Name c = some p := by
  induction c with
  | nil => simp at hp
  | cons q qs ih =>
    rw [List.map_cons, List.nodup_cons] at hc
    rcases List.mem_cons.mp hp with rfl | hmem
    · simp [findProject]
    · have hne : ¬ q.Name = p.Name := by
        intro h
        apply hc.1
        rw [h]
        exact List.mem_map.mpr ⟨p, hmem, rfl⟩
      simp only [findProject, if_neg hne]
      exact ih hc.2 hmem

theorem mem_of_findProject {σ : Type} (n : String) (c : List (Project σ)) (p : Project σ)
    (h : findProject n c = some p) : p ∈ c ∧ p.Name = n := by
  induction c with
  | nil => simp [findProject] at h
  | cons q qs ih =>
    by_cases hq : q.Name = n
    · simp only [findProject, if_pos hq, Option.some.injEq] at h
      subst h
      exact ⟨List.mem_cons_self _ _, hq⟩
    · simp only [findProject, if_neg hq] at h
      exact ⟨List.mem_cons_of_mem _ (ih h).1, (ih h).2⟩

theorem toFinding_eq_none_iff {σ : Type} (severityOf : String → Option σ)
    (ecosystemOf : String → Option FindingEcosystemType) (a : VulnerabilityAlert) :
    toFinding severityOf ecosystemOf a = none ↔ ¬ (knownLabel severityOf ecosystemOf a = true) := by
  unfold toFinding knownLabel
  rcases hs : severityOf a.Severity with _ | sv <;>
    rcases he : ecosystemOf a.Ecosystem with _ | ec <;> simp

theorem classificationError_eq_none_iff {σ : Type} (severityOf : String → Option σ)
    (ecosystemOf : String → Option FindingEcosystemType) (alerts : List VulnerabilityAlert) :
    classificationError severityOf ecosystemOf alerts = none
      ↔ ∀ a ∈ alerts, knownLabel severityOf ecosystemOf a = true := by
  induction alerts with
  | nil => simp [classificationError]
  | cons a rest ih =>
    unfold classificationError
    rcases hf : toFinding severityOf ecosystemOf a with _ | f
    · have hk := (toFinding_eq_none_iff severityOf ecosystemOf a).mp hf
      simp [hk]
    · have hk : knownLabel severityOf ecosystemOf a = true := by
        by_contra hne
        rw [(toFinding_eq_none_iff severityOf ecosystemOf a).mpr hne] at hf
        exact Option.noConfusion hf
      simp [ih, hk]

/-- C8: `CollectFindings` on a fresh collection returns a nil error exactly for a response
whose alerts all carry known severity and ecosystem labels. For every response it yields
exactly one Project per reported repository, named by the repository name, and no other
Project, and the Links of each Project is the single entry `GitHub` mapped to the URL
reported for the repository. For a response without classification failure the Findings of
each Project hold exactly one Finding per alert reported for the repository, in response
order, each as the spec asks of the Finding of its alert; and when no name is reported twice
the Projects follow the repositories in response order. -/
theorem CollectFindings_one_project_per_repository {σ : Type} (teams : List TeamConfig)
    (severityOf : String → Option σ) (ecosystemOf : String → Option FindingEcosystemType)
    (response : List Repository) :
    ((CollectFindings teams severityOf ecosystemOf response (NewProjectCollection σ)).2 = none
      ↔ ∀ r ∈ response, ∀ a ∈ r.Alerts, knownLabel severityOf ecosystemOf a = true) ∧
    (∀ r ∈ response,
      ∃ p ∈ (CollectFindings teams severityOf ecosystemOf response
          (NewProjectCollection σ)).1.Projects,
        p.Name = r.Name ∧
        ∀ q ∈ (CollectFindings teams severityOf ecosystemOf response
          (NewProjectCollection σ)).1.Projects, q.Name = r.Name → q = p) ∧
    (∀ p ∈ (CollectFindings teams severityOf ecosystemOf response
        (NewProjectCollection σ)).1.Projects,
      (∃ r ∈ response, r.Name = p.Name) ∧
      (∃ u, reportedUrl p.Name response = some u ∧ p.Links = [("GitHub", u)]) ∧
      p.Findings
        = (reportedAlerts p.Name response).filterMap (toFinding severityOf ecosystemOf)) ∧
    ((∀ r ∈ response, ∀ a ∈ r.Alerts, knownLabel severityOf ecosystemOf a = true) →
      ∀ p ∈ (CollectFindings teams severityOf ecosystemOf response
          (NewProjectCollection σ)).1.Projects,
        List.Forall₂ (FindingOfAlert severityOf ecosystemOf)
          (reportedAlerts p.Name response) p.Findings) ∧
    ((∀ r ∈ response, ∀ a ∈ r.Alerts, knownLabel severityOf ecosystemOf a = true) →
      (response.map (fun r => r.Name)).Nodup →
      List.Forall₂
        (fun r p => p.Name = r.Name ∧ p.Links = [("GitHub", r.Url)] ∧
          List.Forall₂ (FindingOfAlert severityOf ecosystemOf) r.Alerts p.Findings)
        response
        (CollectFindings teams severityOf ecosystemOf response
          (NewProjectCollection σ)).1.Projects) := by
  have hnd := nodup_foldl_processRepository teams severityOf ecosystemOf response
    ([] : List (Project σ)) (by simp)
  have hfind := fun n => findProject_foldl_processRepository teams severityOf ecosystemOf n
    response ([] : List (Project σ))
  have hproj : ∀ p ∈ (CollectFindings teams severityOf ecosystemOf response
      (NewProjectCollection σ)).1.Projects,
      reportsOf p.Name response ≠ [] ∧
      p = (reportsOf p.Name response).foldl
        (fun q r => repoUpdate teams severityOf ecosystemOf r q) (NewProject p.Name) := by
    intro p hp
    have h1 := findProject_of_mem_nodup _ p hnd hp
    rw [hfind p.Name] at h1
    by_cases hrep : reportsOf p.Name response = []
    · rw [if_pos hrep] at h1
      simp [findProject] at h1
    · rw [if_neg hrep] at h1
      refine ⟨hrep, ?_⟩
      simpa [findProject] using h1.symm
  have hfindings : ∀ p ∈ (CollectFindings teams severityOf ecosystemOf response
      (NewProjectCollection σ)).1.Projects,
      p.Findings
        = (reportedAlerts p.Name response).filterMap (toFinding severityOf ecosystemOf) := by
    intro p hp
    obtain ⟨_, heq⟩ := hproj p hp
    have h2 := (foldl_repoUpdate_fields teams severityOf ecosystemOf
      (reportsOf p.Name response) (NewProject p.Name)).2
    rw [← heq] at h2
    rw [h2]
    simp [NewProject, reportedAlerts]
  refine ⟨?_, ?_, ?_, ?_, ?_⟩
  · show classificationError severityOf ecosystemOf _ = none ↔ _
    rw [classificationError_eq_none_iff]
    simp only [List.mem_flatMap]
    constructor
    · intro h r hr a ha
      exact h a ⟨r, hr, ha⟩
    · rintro h a ⟨r, hr, ha⟩
      exact h r hr a ha
  · intro r hr
    have hrep : reportsOf r.Name response ≠ [] :=
      List.ne_nil_of_mem ((mem_reportsOf r.Name response r).mpr ⟨hr, rfl⟩)
    have h1 := hfind r.Name
    rw [if_neg hrep] at h1
    obtain ⟨hp, hname⟩ := mem_of_findProject _ _ _ h1
    refine ⟨_, hp, hname, ?_⟩
    intro q hq hqn
    exact List.inj_on_of_nodup_map hnd hq hp (hqn.trans hname.symm)
  · intro p hp
    obtain ⟨hrep, heq⟩ := hproj p hp
    refine ⟨?_, ?_, hfindings p hp⟩
    · obtain ⟨r, hr⟩ := List.exists_mem_of_ne_nil _ hrep
      exact ⟨r, ((mem_reportsOf p.Name response r).mp hr).1,
        ((mem_reportsOf p.Name response r).mp hr).2⟩
    · obtain ⟨last, hlast⟩ := Option.isSome_iff_exists.mp
        (List.getLast?_isSome.mpr hrep)
      refine ⟨last.Url, by simp [reportedUrl, hlast], ?_⟩
      rw [heq]
      exact foldl_repoUpdate_links teams severityOf ecosystemOf _ _ last
        (Or.inl rfl) hlast
  · intro hknown p hp
    rw [hfindings p hp]
    apply forall₂_filterMap_toFinding
    intro a ha
    simp only [reportedAlerts, List.mem_flatMap] at ha
    obtain ⟨r, hr, har⟩ := ha
    exact hknown r ((mem_reportsOf p.Name response r).mp hr).1 a har
  · intro hknown hnames
    have hfold := foldl_processRepository_fresh teams severityOf ecosystemOf response
      ([] : List (Project σ)) hnames (by simp)
    show List.Forall₂ _ response
      (response.foldl (processRepository teams severityOf ecosystemOf) [])
    rw [hfold, List.nil_append, List.forall₂_map_right_iff]
    apply List.forall₂_same.mpr
    intro r hr
    obtain ⟨h1, h2, h3⟩ := expectedProject_fields teams severityOf ecosystemOf r
    refine ⟨h1, h2, ?_⟩
    rw [h3]
    exact forall₂_filterMap_toFinding severityOf ecosystemOf r.Alerts (hknown r hr)

/-! ## The test scenarios as instances -/

/-- Witness of C3 (`TestCollectFindingsOwnerNotConfigured`): no team is configured, the
slug `crew` is reported, and the Project `zaphod` has no owner. -/
theorem CollectFindings_owners_are_configured_witness :
    testProject ∅ ∈ (CollectFindings [] testSeverityOf testEcosystemOf [testRepository]
      (NewProjectCollection Nat)).1.Projects ∧
    (testProject ∅).Owners = ∅ :=
  ⟨by decide,
    (CollectFindings_owners_are_configured [] testSeverityOf testEcosystemOf [testRepository]
      (testProject ∅) (by decide)).2.1 (by simp)⟩

/-- Witness of C7 (`TestCollectFindingsOwnerIsConfigured`): the team with slug `crew` is
configured and is the only owner of the Project `zaphod`. -/
theorem CollectFindings_owner_is_configured_witness :
    ∃ p ∈ (CollectFindings [crewTeam] testSeverityOf testEcosystemOf [testRepository]
        (NewProjectCollection Nat)).1.Projects,
      p.Name = testRepository.Name ∧
      (∀ q ∈ (CollectFindings [crewTeam] testSeverityOf testEcosystemOf [testRepository]
        (NewProjectCollection Nat)).1.Projects, q.Name = testRepository.Name → q = p) ∧
      (GetTeamConfigBySlug "crew" [crewTeam]).2 = none ∧
      (GetTeamConfigBySlug "crew" [crewTeam]).1 ∈ p.Owners ∧
      ((∀ s ∈ reportedSlugs testRepository.Name [testRepository], s = "crew") →
        p.Owners = {(GetTeamConfigBySlug "crew" [crewTeam]).1}) :=
  CollectFindings_owner_is_configured [crewTeam] testSeverityOf testEcosystemOf
    [testRepository] testRepository "crew" (by decide) (by decide)
    ⟨crewTeam, by decide, by decide⟩

/-- Witness of C8 (`TestCollectFindingsSingleProjectSingleFinding`): the one repository of
the scenario gives the one Project the test expects. -/
theorem CollectFindings_one_project_per_repository_witness :
    List.Forall₂
      (fun r p => p.Name = r.Name ∧ p.Links = [("GitHub", r.Url)] ∧
        List.Forall₂ (FindingOfAlert testSeverityOf testEcosystemOf) r.Alerts p.Findings)
      [testRepository]
      (CollectFindings [] testSeverityOf testEcosystemOf [testRepository]
        (NewProjectCollection Nat)).1.Projects :=
  (CollectFindings_one_project_per_repository [] testSeverityOf testEcosystemOf
    [testRepository]).2.2.2.2 (by decide) (by decide)

end Vulnbot
